import Mathlib

/-!
Verification of the kinematic core of the EA888 visual simulator
(`src/engine.ts`).  The moving parts are embedded shallowly: three.js
vectors become `Vec3`, object transforms become explicit rotation and
translation data, and every per-frame mutation becomes a pure function
on a state record.  Object matrices are modelled as flushed, i.e. a
node's world matrix reflects its current local position and rotation
with all ancestors at the identity (the assembly's local frame).
-/

open Real

/-- A 3D vector, as `THREE.Vector3`. -/
structure Vec3 where
  x : ℝ
  y : ℝ
  z : ℝ

/-- Rotation of a vector about the `y` axis by `θ`, the action of
`applyEuler(new THREE.Euler(0, θ, 0))`: `(0,0,1)` maps to `(sin θ, 0, cos θ)`. -/
noncomputable def rotY (θ : ℝ) (v : Vec3) : Vec3 :=
  ⟨v.x * Real.cos θ + v.z * Real.sin θ, v.y, -v.x * Real.sin θ + v.z * Real.cos θ⟩

/-- Euclidean length of a `Vec3`, as `THREE.Vector3.length()`. -/
noncomputable def norm3 (v : Vec3) : ℝ :=
  Real.sqrt (v.x ^ 2 + v.y ^ 2 + v.z ^ 2)

/-- The kinematic state of `Crankshaft`: the throw radius, the stored
`angleRad`, and the local transform of `root` (`position.z` fixed at
construction by `CylinderKinematics`, `rotation.y` written by
`setAngleRadians`). -/
structure Crankshaft where
  throwRadius : ℝ
  angleRad : ℝ
  rootPositionZ : ℝ
  rootRotationY : ℝ

/-- `Crankshaft.setAngleRadians(theta)`: stores the angle and writes
`root.rotation.y = theta`. -/
def Crankshaft.setAngleRadians (c : Crankshaft) (theta : ℝ) : Crankshaft :=
  { c with angleRad := theta, rootRotationY := theta }

/-- The action of `root.matrixWorld` on a point: the crank root's local
rotation about `y` followed by its translation along `z` (ancestors are
at the identity in the assembly frame). -/
noncomputable def Crankshaft.matrixWorld (c : Crankshaft) (v : Vec3) : Vec3 :=
  let w := rotY c.rootRotationY v
  ⟨w.x, w.y, w.z + c.rootPositionZ⟩

/-- `Crankshaft.getJournalWorldPosition`: sets the target to
`(0, 0, throwRadius)`, applies `Euler(0, angleRad, 0)`, then applies
`root.matrixWorld`. -/
noncomputable def Crankshaft.getJournalWorldPosition (c : Crankshaft) : Vec3 :=
  c.matrixWorld (rotY c.angleRad ⟨0, 0, c.throwRadius⟩)

/-- The pose written by `ConnectingRod.alignBetween(worldA, worldB)`:
root placed at `worldA`, the quaternion determined by the direction
`worldB − worldA`, the rod mesh's `scale.y = length / restLength`, and
the small end at local `(0, length, 0)`. -/
structure RodPose where
  rootPosition : Vec3
  dir : Vec3
  scaleY : ℝ
  smallEndY : ℝ

/-- `ConnectingRod.alignBetween`, as a function of the rod's rest length
and the two world endpoints. -/
noncomputable def alignBetween (restLength : ℝ) (worldA worldB : Vec3) : RodPose :=
  let dir : Vec3 := ⟨worldB.x - worldA.x, worldB.y - worldA.y, worldB.z - worldA.z⟩
  let length := norm3 dir
  { rootPosition := worldA, dir := dir, scaleY := length / restLength, smallEndY := length }

/-- `CylinderKinematicsConfig` from `src/engine.ts`. -/
structure CylinderKinematicsConfig where
  crankThrowRadius : ℝ
  rodLength : ℝ
  deckHeight : ℝ
  boreCenterZ : ℝ
  tdcPhaseRadians : ℝ

/-- The solver's piston offset `y`, exactly the expression computed in
`CylinderKinematics.update`:
`r * Math.cos(theta) + Math.sqrt(Math.max(l * l - Math.pow(r * Math.sin(theta), 2), 0))`. -/
noncomputable def pistonOffset (r l theta : ℝ) : ℝ :=
  r * Real.cos theta + Real.sqrt (max (l * l - (r * Real.sin theta) ^ 2) 0)

/-- The spec's formula for the piston offset, stated with its own words:
`r·cos(θ) + sqrt(max(l² − (r·sin θ)², 0))`. -/
noncomputable def pistonOffsetSpec (r l θ : ℝ) : ℝ :=
  r * Real.cos θ + Real.sqrt (max (l ^ 2 - (r * Real.sin θ) ^ 2) 0)

/-- The outputs written by one `CylinderKinematics.update` call. -/
structure CylinderState where
  crank : Crankshaft
  pistonY : ℝ
  rod : RodPose

/-- `CylinderKinematics.update(crankAngleRad)`: local angle
`theta = crankAngleRad + tdcPhaseRadians`; the crank is rotated to
`theta`; the piston crown is placed at `deckHeight − y` with `y` the
slider-crank offset; the rod is aligned between the crank journal world
position and the piston pin world position
`(crank.root.position.x, deckY − y, boreCenterZ)` (`position.x` is `0`,
only `position.z` is ever set on the crank root). -/
noncomputable def CylinderKinematics.update (config : CylinderKinematicsConfig)
    (crankAngleRad : ℝ) : CylinderState :=
  let theta := crankAngleRad + config.tdcPhaseRadians
  let crank := Crankshaft.setAngleRadians
    ⟨config.crankThrowRadius, 0, config.boreCenterZ, 0⟩ theta
  let r := config.crankThrowRadius
  let l := config.rodLength
  let y := pistonOffset r l theta
  let deckY := config.deckHeight
  let a := crank.getJournalWorldPosition
  let pistonPinWorld : Vec3 := ⟨0, deckY - y, config.boreCenterZ⟩
  { crank := crank, pistonY := deckY - y, rod := alignBetween l a pistonPinWorld }

/-- The solver's offset expression and the spec's formula agree. -/
theorem pistonOffset_eq_spec (r l θ : ℝ) : pistonOffset r l θ = pistonOffsetSpec r l θ := by
  simp only [pistonOffset, pistonOffsetSpec, pow_two]

/-- What `update` writes as the piston height, in terms of the offset. -/
theorem update_pistonY (config : CylinderKinematicsConfig) (a : ℝ) :
    (CylinderKinematics.update config a).pistonY
      = config.deckHeight
        - pistonOffset config.crankThrowRadius config.rodLength (a + config.tdcPhaseRadians) :=
  rfl

/-- C1: for every crank angle, throw radius, rod length and deck height,
the solver's piston offset equals `r·cos θ + sqrt(max(l² − (r·sin θ)², 0))`
with `θ` the local angle (global angle + phase), and the piston's axial
world position written by `update` equals `deckHeight − pistonOffset`. -/
theorem piston_offset_formula_and_height (config : CylinderKinematicsConfig) (a r l θ : ℝ) :
    pistonOffset r l θ = pistonOffsetSpec r l θ ∧
    (CylinderKinematics.update config a).pistonY
      = config.deckHeight
        - pistonOffset config.crankThrowRadius config.rodLength (a + config.tdcPhaseRadians) :=
  ⟨pistonOffset_eq_spec r l θ, update_pistonY config a⟩

/-- The offset at `θ = 0` for non-negative rod length. -/
theorem pistonOffset_zero (r l : ℝ) (hl : 0 ≤ l) : pistonOffset r l 0 = r + l := by
  simp only [pistonOffset, Real.cos_zero, Real.sin_zero, mul_one, mul_zero,
    ne_eq, OfNat.ofNat_ne_zero, not_false_eq_true, zero_pow, sub_zero]
  rw [max_eq_left (mul_self_nonneg l), Real.sqrt_mul_self hl]

/-- The offset at `θ = π` for non-negative rod length. -/
theorem pistonOffset_pi (r l : ℝ) (hl : 0 ≤ l) : pistonOffset r l Real.pi = l - r := by
  simp only [pistonOffset, Real.cos_pi, Real.sin_pi, mul_zero, ne_eq,
    OfNat.ofNat_ne_zero, not_false_eq_true, zero_pow, sub_zero, mul_neg, mul_one]
  rw [max_eq_left (mul_self_nonneg l), Real.sqrt_mul_self hl]
  ring

/-- C3: for valid geometry `l > r > 0`, the offset is `r + l` at `θ = 0`
and `l − r` at `θ = π`; with `r = 0.043`, `l = 0.145` these are `0.188`
and `0.102` (so in particular approximately those values). -/
theorem pistonOffset_tdc_bdc (r l : ℝ) (hr : 0 < r) (hrl : r < l) :
    (pistonOffset r l 0 = r + l ∧ pistonOffset r l Real.pi = l - r) ∧
    (pistonOffset 0.043 0.145 0 = 0.188 ∧ pistonOffset 0.043 0.145 Real.pi = 0.102) := by
  have hl : (0 : ℝ) ≤ l := le_of_lt (lt_trans hr hrl)
  refine ⟨⟨pistonOffset_zero r l hl, pistonOffset_pi r l hl⟩, ?_, ?_⟩
  · rw [pistonOffset_zero 0.043 0.145 (by norm_num)]; norm_num
  · rw [pistonOffset_pi 0.043 0.145 (by norm_num)]; norm_num

/-- Witness for C3 at the EA888 geometry `r = 0.043`, `l = 0.145`. -/
theorem pistonOffset_tdc_bdc_witness :
    (pistonOffset 0.043 0.145 0 = 0.043 + 0.145 ∧
      pistonOffset 0.043 0.145 Real.pi = 0.145 - 0.043) ∧
    (pistonOffset 0.043 0.145 0 = 0.188 ∧ pistonOffset 0.043 0.145 Real.pi = 0.102) :=
  pistonOffset_tdc_bdc 0.043 0.145 (by norm_num) (by norm_num)

/-- C4: for `l > r > 0` the offset stays within `[l − r, l + r]`. -/
theorem pistonOffset_bounds (r l θ : ℝ) (hr : 0 < r) (hrl : r < l) :
    l - r ≤ pistonOffset r l θ ∧ pistonOffset r l θ ≤ l + r := by
  have hc1 : Real.cos θ ≤ 1 := Real.cos_le_one θ
  have hc2 : -1 ≤ Real.cos θ := Real.neg_one_le_cos θ
  have hs1 : Real.sin θ ^ 2 ≤ 1 := Real.sin_sq_le_one θ
  have hpyth : Real.sin θ ^ 2 + Real.cos θ ^ 2 = 1 := Real.sin_sq_add_cos_sq θ
  have hl : (0 : ℝ) < l := lt_trans hr hrl
  have hrad : l * l - (r * Real.sin θ) ^ 2 = l ^ 2 - r ^ 2 + (r * Real.cos θ) ^ 2 := by
    nlinarith [sq_nonneg (Real.sin θ), sq_nonneg r]
  have hradnn : (0 : ℝ) ≤ l * l - (r * Real.sin θ) ^ 2 := by nlinarith
  have hmax : max (l * l - (r * Real.sin θ) ^ 2) 0 = l * l - (r * Real.sin θ) ^ 2 :=
    max_eq_left hradnn
  constructor
  · have hkey : (l - r - r * Real.cos θ) ^ 2 ≤ l * l - (r * Real.sin θ) ^ 2 := by
      nlinarith [mul_nonneg (mul_nonneg hr.le (sub_nonneg.2 hrl.le)) (by linarith : (0:ℝ) ≤ 1 + Real.cos θ)]
    have h1 : Real.sqrt ((l - r - r * Real.cos θ) ^ 2)
        ≤ Real.sqrt (max (l * l - (r * Real.sin θ) ^ 2) 0) := by
      rw [hmax]; exact Real.sqrt_le_sqrt hkey
    rw [Real.sqrt_sq_eq_abs] at h1
    have h2 := le_trans (le_abs_self (l - r - r * Real.cos θ)) h1
    simp only [pistonOffset]
    linarith
  · have hle : max (l * l - (r * Real.sin θ) ^ 2) 0 ≤ l ^ 2 := by
      apply max_le
      · nlinarith [sq_nonneg (r * Real.sin θ)]
      · positivity
    have h1 : Real.sqrt (max (l * l - (r * Real.sin θ) ^ 2) 0) ≤ l := by
      calc Real.sqrt (max (l * l - (r * Real.sin θ) ^ 2) 0)
          ≤ Real.sqrt (l ^ 2) := Real.sqrt_le_sqrt hle
        _ = l := Real.sqrt_sq hl.le
    have h2 : r * Real.cos θ ≤ r := by nlinarith
    simp only [pistonOffset]
    linarith

/-- Witness for C4 at the EA888 geometry and `θ = 1`. -/
theorem pistonOffset_bounds_witness :
    0.145 - 0.043 ≤ pistonOffset 0.043 0.145 1 ∧
      pistonOffset 0.043 0.145 1 ≤ 0.145 + 0.043 :=
  pistonOffset_bounds 0.043 0.145 1 (by norm_num) (by norm_num)

/-- C5: the offset is total by construction (a real-valued function of
`r`, `l`, `θ`), and whenever the radicand `l² − (r·sin θ)²` is negative
the clamp makes the offset collapse to `r·cos θ`. -/
theorem pistonOffset_clamp_degenerate (r l θ : ℝ)
    (h : l * l - (r * Real.sin θ) ^ 2 < 0) :
    pistonOffset r l θ = r * Real.cos θ := by
  simp only [pistonOffset]
  rw [max_eq_right h.le, Real.sqrt_zero, add_zero]

/-- Witness for C5 at the spec's degenerate geometry `r = 0.2`, `l = 0.1`,
`θ = π/2`, where the radicand is `0.01 − 0.04 < 0`. -/
theorem pistonOffset_clamp_degenerate_witness :
    (0.1 : ℝ) * 0.1 - (0.2 * Real.sin (Real.pi / 2)) ^ 2 < 0 ∧
      pistonOffset 0.2 0.1 (Real.pi / 2) = 0.2 * Real.cos (Real.pi / 2) := by
  have h : (0.1 : ℝ) * 0.1 - (0.2 * Real.sin (Real.pi / 2)) ^ 2 < 0 := by
    rw [Real.sin_pi_div_two]; norm_num
  exact ⟨h, pistonOffset_clamp_degenerate 0.2 0.1 (Real.pi / 2) h⟩

/-- The kinematic state of `Camshaft`: stored half-speed `angleRad`, the
root's rotation about `y`, and the root's `position.z` (set by the
builder, later moved by the exploded-view controller). -/
structure Camshaft where
  angleRad : ℝ
  rootRotationY : ℝ
  rootPositionZ : ℝ

/-- `Camshaft.setCrankAngle`: 2:1 cam:crank ratio,
`angleRad = crankAngleRad / 2`, written to `root.rotation.y` as well. -/
noncomputable def Camshaft.setCrankAngle (c : Camshaft) (crankAngleRad : ℝ) : Camshaft :=
  { c with angleRad := crankAngleRad / 2, rootRotationY := crankAngleRad / 2 }

namespace EA888

/-- Deck height constant of `buildInlineFourEA888`. -/
noncomputable def deckHeight : ℝ := 0.5

/-- Crank throw radius constant of `buildInlineFourEA888`. -/
noncomputable def crankThrowRadius : ℝ := 0.043

/-- Rod length constant of `buildInlineFourEA888`. -/
noncomputable def rodLength : ℝ := 0.145

/-- Bore spacing constant of `buildInlineFourEA888`. -/
noncomputable def zSpacing : ℝ := 0.095

/-- Bore centers `[-1.5, -0.5, 0.5, 1.5] · zSpacing`. -/
noncomputable def bores : Fin 4 → ℝ := fun i =>
  match i with
  | 0 => -1.5 * zSpacing
  | 1 => -0.5 * zSpacing
  | 2 => 0.5 * zSpacing
  | 3 => 1.5 * zSpacing

/-- Per-cylinder TDC phases `[0, π, π, 0]` (1-3-4-2 firing approximation). -/
noncomputable def phase : Fin 4 → ℝ := fun i =>
  match i with
  | 0 => 0
  | 1 => Real.pi
  | 2 => Real.pi
  | 3 => 0

/-- The `CylinderKinematicsConfig` the builder passes for cylinder `i`. -/
noncomputable def config (i : Fin 4) : CylinderKinematicsConfig :=
  { crankThrowRadius := crankThrowRadius
    rodLength := rodLength
    deckHeight := deckHeight
    boreCenterZ := bores i
    tdcPhaseRadians := phase i }

/-- Rest height of every valve root: `new Valve(deckHeight + 0.08)`. -/
noncomputable def valveBaseY : ℝ := deckHeight + 0.08

end EA888

/-- `atan2(sin d, cos d)`: the angle normalized into `(−π, π]`, embedded
as the complex argument of `cos d + (sin d)·i`. -/
noncomputable def normalizeAngle (d : ℝ) : ℝ :=
  Complex.arg ((Real.cos d : ℂ) + (Real.sin d : ℂ) * Complex.I)

/-- `lobeLift(phi, center, duration, maxLift)` from `buildInlineFourEA888`:
normalize `d = phi − center` to `(−π, π]`, return `0` outside the
half-duration window, otherwise the raised-cosine bump
`maxLift · (cos(d / (duration/2) · π) + 1) / 2`. -/
noncomputable def lobeLift (phi center duration maxLift : ℝ) : ℝ :=
  let d := normalizeAngle (phi - center)
  if |d| > duration / 2 then 0
  else maxLift * ((Real.cos (d / (duration / 2) * Real.pi) + 1) / 2)

/-- The mutable state of the built assembly: kinematic outputs written by
`__update` (per-cylinder states, sprocket rotations, cam states, valve
root heights) and presentational placements written by `__setExploded`
(head height, cam `z` positions, timing and valve group offsets). -/
structure AssemblyState where
  cylinders : Fin 4 → CylinderState
  crankSprocketRotY : ℝ
  intakeSprocketRotY : ℝ
  exhaustSprocketRotY : ℝ
  intakeCam : Camshaft
  exhaustCam : Camshaft
  intakeValveY : Fin 4 → ℝ
  exhaustValveY : Fin 4 → ℝ
  headPositionY : ℝ
  timingGroupPositionX : ℝ
  valveGroupPositionY : ℝ

/-- `__update(angle)`: updates every cylinder, spins the crank sprocket at
crank speed and the cam sprockets and cams at half speed, and sets each
valve's root height from `lobeLift` (a valve with lift `v` sits at
`baseY − v`, per `Valve.setLift`).  Intake lobes are centered at `+60°`
cam, exhaust lobes at `−60°`, with `120°` duration and `0.015` max lift. -/
noncomputable def updateAssembly (s : AssemblyState) (angle : ℝ) : AssemblyState :=
  let camAngle := angle / 2
  let duration := 120 * Real.pi / 180
  let liftMax : ℝ := 0.015
  { s with
    cylinders := fun i => CylinderKinematics.update (EA888.config i) angle
    crankSprocketRotY := angle
    intakeSprocketRotY := camAngle
    exhaustSprocketRotY := camAngle
    intakeCam := s.intakeCam.setCrankAngle angle
    exhaustCam := s.exhaustCam.setCrankAngle angle
    intakeValveY := fun i =>
      EA888.valveBaseY
        - lobeLift (camAngle + EA888.phase i / 2) (60 * Real.pi / 180) duration liftMax
    exhaustValveY := fun i =>
      EA888.valveBaseY
        - lobeLift (camAngle + EA888.phase i / 2) (-60 * Real.pi / 180) duration liftMax }

/-- `THREE.MathUtils.clamp(value, lo, hi) = Math.max(lo, Math.min(hi, value))`. -/
noncomputable def clamp (value lo hi : ℝ) : ℝ := max lo (min hi value)

/-- `__setExploded(t)`: clamps `t` to `[0,1]` and linearly interpolates the
head height, the cam `z` positions, and the timing/valve group offsets. -/
noncomputable def setExploded (s : AssemblyState) (t : ℝ) : AssemblyState :=
  let k := clamp t 0 1
  { s with
    headPositionY := EA888.deckHeight + k * 0.15
    intakeCam := { s.intakeCam with rootPositionZ := (EA888.bores 0 - 0.15) - k * 0.12 }
    exhaustCam := { s.exhaustCam with rootPositionZ := (EA888.bores 3 + 0.15) + k * 0.12 }
    timingGroupPositionX := -k * 0.15
    valveGroupPositionY := k * 0.05 }

/-- The kinematic outputs of a state: everything `__update` writes —
cylinder states, sprocket rotations, cam angles and rotations, and the
valve heights — excluding the presentational placements. -/
noncomputable def kinematicOutputs (s : AssemblyState) :
    (Fin 4 → CylinderState) × ℝ × ℝ × ℝ × ℝ × ℝ × ℝ × ℝ × (Fin 4 → ℝ) × (Fin 4 → ℝ) :=
  (s.cylinders, s.crankSprocketRotY, s.intakeSprocketRotY, s.exhaustSprocketRotY,
    s.intakeCam.angleRad, s.intakeCam.rootRotationY,
    s.exhaustCam.angleRad, s.exhaustCam.rootRotationY,
    s.intakeValveY, s.exhaustValveY)

/-- C6: for every crank angle (negative and multi-revolution included),
both camshafts compute exactly `crankAngle / 2`, both cam sprockets are
set to that same half-speed angle, and the crank sprocket mirrors the
crank angle itself. -/
theorem cam_half_speed (s : AssemblyState) (angle : ℝ) :
    (updateAssembly s angle).intakeCam.angleRad = angle / 2 ∧
    (updateAssembly s angle).exhaustCam.angleRad = angle / 2 ∧
    (updateAssembly s angle).intakeSprocketRotY = angle / 2 ∧
    (updateAssembly s angle).exhaustSprocketRotY = angle / 2 ∧
    (updateAssembly s angle).crankSprocketRotY = angle :=
  ⟨rfl, rfl, rfl, rfl, rfl⟩

/-- C8: with phases `{0, π, π, 0}`, cylinders 1 and 4 (indices 0 and 3)
have identical piston heights at every global crank angle, as do
cylinders 2 and 3 (indices 1 and 2), and the second pair's motion is the
first pair's shifted by exactly `π` of crank angle — so the pairs reach
their dead centers simultaneously and `π` apart. -/
theorem firing_pair_symmetry (s : AssemblyState) (a : ℝ) :
    ((updateAssembly s a).cylinders 0).pistonY = ((updateAssembly s a).cylinders 3).pistonY ∧
    ((updateAssembly s a).cylinders 1).pistonY = ((updateAssembly s a).cylinders 2).pistonY ∧
    ((updateAssembly s a).cylinders 1).pistonY
      = ((updateAssembly s (a + Real.pi)).cylinders 0).pistonY := by
  refine ⟨rfl, rfl, ?_⟩
  show EA888.deckHeight - pistonOffset _ _ (a + EA888.phase 1)
    = EA888.deckHeight - pistonOffset _ _ (a + Real.pi + EA888.phase 0)
  have h1 : EA888.phase 1 = Real.pi := rfl
  have h0 : EA888.phase 0 = 0 := rfl
  rw [h1, h0, add_zero]
  rfl

/-- If two states agree nowhere, `__update` still writes the same
kinematic outputs: they are functions of the angle alone. -/
theorem updateAssembly_kinematics_const (s1 s2 : AssemblyState) (angle : ℝ) :
    kinematicOutputs (updateAssembly s1 angle) = kinematicOutputs (updateAssembly s2 angle) :=
  rfl

/-- C9: for every crank angle and every sequence of `__setExploded` calls
with any factors, the kinematic outputs of `__update` — piston heights,
crank rotations, rod alignment, sprocket and cam angles, valve heights —
are identical to those with no `__setExploded` calls; the exploded
factor never feeds back into the kinematics. -/
theorem exploded_no_kinematic_feedback (s : AssemblyState) (angle : ℝ) (ts : List ℝ) :
    kinematicOutputs (updateAssembly (ts.foldl setExploded s) angle)
      = kinematicOutputs (updateAssembly s angle) :=
  updateAssembly_kinematics_const (ts.foldl setExploded s) s angle

/-- The clamp lands in `[0, 1]`. -/
theorem clamp_mem_unit (t : ℝ) : 0 ≤ clamp t 0 1 ∧ clamp t 0 1 ≤ 1 :=
  ⟨le_max_left 0 _, max_le (by norm_num) (min_le_left 1 t)⟩

/-- Clamping to `[0, 1]` is idempotent. -/
theorem clamp_unit_idem (t : ℝ) : clamp (clamp t 0 1) 0 1 = clamp t 0 1 := by
  have h := clamp_mem_unit t
  unfold clamp
  rw [min_eq_right, max_eq_right]
  · exact le_max_left 0 _
  · exact max_le (by norm_num) (min_le_left 1 t)

/-- C10: `__setExploded` behaves exactly as if called with the clamped
factor, so every placement it writes is that of some factor in `[0, 1]`;
out-of-range inputs never move components past the assembled or the
fully exploded layouts. -/
theorem setExploded_clamps (s : AssemblyState) (t : ℝ) :
    setExploded s t = setExploded s (clamp t 0 1) ∧
    ∃ k, 0 ≤ k ∧ k ≤ 1 ∧ setExploded s t = setExploded s k := by
  have heq : setExploded s t = setExploded s (clamp t 0 1) := by
    simp only [setExploded, clamp_unit_idem]
  exact ⟨heq, clamp t 0 1, (clamp_mem_unit t).1, (clamp_mem_unit t).2, heq⟩

/-- `lobeLift` with its let-bindings unfolded. -/
theorem lobeLift_def (phi center duration maxLift : ℝ) :
    lobeLift phi center duration maxLift =
      if |normalizeAngle (phi - center)| > duration / 2 then 0
      else maxLift
        * ((Real.cos (normalizeAngle (phi - center) / (duration / 2) * Real.pi) + 1) / 2) :=
  rfl

/-- `atan2(sin d, cos d)` is the identity on `(−π, π]`. -/
theorem normalizeAngle_eq_self (d : ℝ) (h1 : -Real.pi < d) (h2 : d ≤ Real.pi) :
    normalizeAngle d = d := by
  unfold normalizeAngle
  rw [Complex.ofReal_cos, Complex.ofReal_sin]
  exact Complex.arg_cos_add_sin_mul_I ⟨h1, h2⟩

/-- `atan2(sin 0, cos 0) = 0`. -/
theorem normalizeAngle_zero : normalizeAngle 0 = 0 := by
  unfold normalizeAngle
  simp

/-- C7: for any lobe center, any duration in `(0, 2π)` and any
non-negative max lift, the valve lift is `0` whenever the normalized
shortest-path distance reaches half the duration; equals `maxLift`
exactly at the lobe center; is non-negative everywhere; and is symmetric
about the center inside the window. -/
theorem lobeLift_profile (phi center duration maxLift x : ℝ)
    (hd0 : 0 < duration) (hd2 : duration < 2 * Real.pi) (hm : 0 ≤ maxLift) :
    (duration / 2 ≤ |normalizeAngle (phi - center)| →
      lobeLift phi center duration maxLift = 0) ∧
    lobeLift center center duration maxLift = maxLift ∧
    0 ≤ lobeLift phi center duration maxLift ∧
    (|x| < duration / 2 →
      lobeLift (center + x) center duration maxLift
        = lobeLift (center - x) center duration maxLift) := by
  have hd2pos : (0 : ℝ) < duration / 2 := by linarith
  refine ⟨?_, ?_, ?_, ?_⟩
  · intro h
    rw [lobeLift_def]
    by_cases hgt : |normalizeAngle (phi - center)| > duration / 2
    · rw [if_pos hgt]
    · rw [if_neg hgt]
      push_neg at hgt
      have habs : |normalizeAngle (phi - center)| = duration / 2 := le_antisymm hgt h
      rcases (abs_eq hd2pos.le).mp habs with hcase | hcase
      · rw [hcase, div_self (ne_of_gt hd2pos), one_mul, Real.cos_pi]
        norm_num
      · rw [hcase, neg_div, div_self (ne_of_gt hd2pos), neg_one_mul, Real.cos_neg, Real.cos_pi]
        norm_num
  · rw [lobeLift_def, sub_self, normalizeAngle_zero]
    rw [if_neg (by rw [abs_zero]; exact not_lt.mpr hd2pos.le)]
    rw [zero_div, zero_mul, Real.cos_zero]
    norm_num
  · rw [lobeLift_def]
    split_ifs with h
    · exact le_refl 0
    · have hc := Real.neg_one_le_cos
        (normalizeAngle (phi - center) / (duration / 2) * Real.pi)
      have ht : (0 : ℝ)
          ≤ (Real.cos (normalizeAngle (phi - center) / (duration / 2) * Real.pi) + 1) / 2 := by
        linarith
      exact mul_nonneg hm ht
  · intro hx
    have hdpi : duration / 2 < Real.pi := by linarith
    have hx1 : -(duration / 2) < x := (abs_lt.mp hx).1
    have hx2 : x < duration / 2 := (abs_lt.mp hx).2
    have e1 : center + x - center = x := by ring
    have e2 : center - x - center = -x := by ring
    rw [lobeLift_def, lobeLift_def, e1, e2,
      normalizeAngle_eq_self x (by linarith) (by linarith),
      normalizeAngle_eq_self (-x) (by linarith) (by linarith), abs_neg]
    split_ifs with h
    · rfl
    · rw [neg_div, neg_mul, Real.cos_neg]

/-- Witness for C7 at `center = 0`, `duration = π`, `maxLift = 1`,
`phi = π/4`, `x = 0`. -/
theorem lobeLift_profile_witness :
    (Real.pi / 2 ≤ |normalizeAngle (Real.pi / 4 - 0)| →
      lobeLift (Real.pi / 4) 0 Real.pi 1 = 0) ∧
    lobeLift 0 0 Real.pi 1 = 1 ∧
    0 ≤ lobeLift (Real.pi / 4) 0 Real.pi 1 ∧
    (|(0 : ℝ)| < Real.pi / 2 →
      lobeLift (0 + 0) 0 Real.pi 1 = lobeLift (0 - 0) 0 Real.pi 1) :=
  lobeLift_profile (Real.pi / 4) 0 Real.pi 1 0 Real.pi_pos
    (by linarith [Real.pi_pos]) (by norm_num)

/-- The spec's `journalPosition(angle, throwRadius)` stated with its own
words: a point at distance `throwRadius` from the crank center, rotated
by `angle` about the crank's rotation axis (`y`), expressed at the crank
root's world location (`position.z = boreCenterZ`). -/
noncomputable def journalPositionSpec (angle throwRadius boreCenterZ : ℝ) : Vec3 :=
  let p := rotY angle ⟨0, 0, throwRadius⟩
  ⟨p.x, p.y, p.z + boreCenterZ⟩

/-- Distance of a point from the crank center `(0, 0, z0)`. -/
noncomputable def distToCrankCenter (v : Vec3) (z0 : ℝ) : ℝ :=
  norm3 ⟨v.x, v.y, v.z - z0⟩

/-- C2 counterexample: with throw radius `1`, crank center at the origin
and crank angle `π/2`, the code's journal sits at `(0, 0, −1)` — angular
position `π` about the axis — not at `(1, 0, 0)`, the point rotated by
the crank angle itself: `applyEuler(0, angleRad, 0)` and
`root.matrixWorld` (whose rotation `setAngleRadians` also set to
`angleRad`) each contribute the angle once. -/
theorem journal_rotation_counterexample :
    (Crankshaft.setAngleRadians ⟨1, 0, 0, 0⟩ (Real.pi / 2)).getJournalWorldPosition
      ≠ journalPositionSpec (Real.pi / 2) 1 0 := by
  intro h
  have hx := congrArg Vec3.x h
  simp only [Crankshaft.setAngleRadians, Crankshaft.getJournalWorldPosition,
    Crankshaft.matrixWorld, journalPositionSpec, rotY] at hx
  rw [Real.cos_pi_div_two, Real.sin_pi_div_two] at hx
  norm_num at hx

/-- The journal of `journalPositionSpec` lies at distance `throwRadius`
from the crank center. -/
theorem distToCrankCenter_journalPositionSpec (a r z0 : ℝ) (hr : 0 ≤ r) :
    distToCrankCenter (journalPositionSpec a r z0) z0 = r := by
  have h := Real.sin_sq_add_cos_sq a
  simp only [distToCrankCenter, journalPositionSpec, norm3, rotY]
  rw [show (0 * Real.cos a + r * Real.sin a) ^ 2 + (0 : ℝ) ^ 2
      + (-0 * Real.sin a + r * Real.cos a + z0 - z0) ^ 2 = r ^ 2 by linear_combination r ^ 2 * h]
  exact Real.sqrt_sq hr

/-- C2 amended: after `setAngleRadians(angle)`, the journal world
position is the point at distance `throwRadius` from the crank center
rotated by exactly `2·angle` about the rotation axis (the local Euler
rotation and the root's world rotation compose), and its distance from
the crank center is `throwRadius`. -/
theorem journal_double_rotation (c : Crankshaft) (angle : ℝ) (hr : 0 ≤ c.throwRadius) :
    (c.setAngleRadians angle).getJournalWorldPosition
      = journalPositionSpec (2 * angle) c.throwRadius c.rootPositionZ ∧
    distToCrankCenter (c.setAngleRadians angle).getJournalWorldPosition c.rootPositionZ
      = c.throwRadius := by
  have hsc := Real.sin_sq_add_cos_sq angle
  have hj : (c.setAngleRadians angle).getJournalWorldPosition
      = journalPositionSpec (2 * angle) c.throwRadius c.rootPositionZ := by
    simp only [Crankshaft.setAngleRadians, Crankshaft.getJournalWorldPosition,
      Crankshaft.matrixWorld, journalPositionSpec, rotY]
    rw [Vec3.mk.injEq]
    refine ⟨?_, rfl, ?_⟩
    · rw [Real.sin_two_mul]; ring
    · rw [Real.cos_two_mul]; linear_combination (-c.throwRadius) * hsc
  exact ⟨hj, by
    rw [hj]
    exact distToCrankCenter_journalPositionSpec (2 * angle) c.throwRadius c.rootPositionZ hr⟩

/-- Witness for the amended C2 at throw radius `1`, center `0`, angle `π/2`. -/
theorem journal_double_rotation_witness :
    (Crankshaft.setAngleRadians ⟨1, 0, 0, 0⟩ (Real.pi / 2)).getJournalWorldPosition
      = journalPositionSpec (2 * (Real.pi / 2)) 1 0 ∧
    distToCrankCenter
      (Crankshaft.setAngleRadians ⟨1, 0, 0, 0⟩ (Real.pi / 2)).getJournalWorldPosition 0 = 1 :=
  journal_double_rotation ⟨1, 0, 0, 0⟩ (Real.pi / 2) (by norm_num)
